import Mathlib

/-!
Verification of the surtr SURT engine and its Go binding.

The repository ships the Go binding (`crates/go_surtr/go_surtr.go`), the C
header it binds against, and the Go test suite; the native canonicalization
engine itself is a separate Rust crate that is not part of the source tree.
The engine is therefore modelled here from the specification (purpose,
data model, component contracts in sections 3 and 4 of the design document),
and the Go-level functions are translated directly from `go_surtr.go`.
Strings are represented as `List Char`; the Go entry points work on `String`
via `String.data`.
-/

namespace Surtr

/-- Lowercases a single ASCII character; other characters are unchanged. -/
def lowerChar (c : Char) : Char :=
  if 65 ≤ c.toNat ∧ c.toNat ≤ 90 then Char.ofNat (c.toNat + 32) else c

/-- Lowercases every ASCII character of a string. -/
def lowerChars (s : List Char) : List Char := s.map lowerChar

/-- Splits a string at the first occurrence of `sep`, returning the parts
before and after it, or `none` when `sep` does not occur. -/
def splitFirst (sep : Char) : List Char → Option (List Char × List Char)
  | [] => none
  | c :: cs =>
    if c = sep then some ([], cs)
    else
      match splitFirst sep cs with
      | some (a, b) => some (c :: a, b)
      | none => none

/-- Splits a string at the last occurrence of `sep`. -/
def splitLast (sep : Char) (s : List Char) : Option (List Char × List Char) :=
  match splitFirst sep s.reverse with
  | some (a, b) => some (b.reverse, a.reverse)
  | none => none

/-- Splits a string on every occurrence of `sep`; the result is never empty
and empty groups are preserved. -/
def splitOnChar (sep : Char) : List Char → List (List Char)
  | [] => [[]]
  | c :: cs =>
    if c = sep then [] :: splitOnChar sep cs
    else
      match splitOnChar sep cs with
      | [] => [[c]]
      | g :: gs => (c :: g) :: gs

/-- Joins a list of groups with the separator character `sep`. -/
def joinSep (sep : Char) : List (List Char) → List Char
  | [] => []
  | [g] => g
  | g :: gs => g ++ sep :: joinSep sep gs

/-- Tests for an ASCII decimal digit. -/
def isDigitChar (c : Char) : Bool := 48 ≤ c.toNat && c.toNat ≤ 57

/-- Decimal value of a digit string. -/
def natOfDigits (s : List Char) : Nat := s.foldl (fun n c => n * 10 + (c.toNat - 48)) 0

/-- Tests whether a host label is a valid IPv4 octet (one to three digits,
value at most 255). -/
def isOctet (s : List Char) : Bool :=
  !s.isEmpty && s.all isDigitChar && decide (natOfDigits s ≤ 255) && decide (s.length ≤ 3)

/-- Modelled from the spec: a host is a literal IPv4 address when it is four
dot-separated octets. -/
def isIPv4 (host : List Char) : Bool :=
  match splitOnChar '.' host with
  | [a, b, c, d] => isOctet a && isOctet b && isOctet c && isOctet d
  | _ => false

/-- Value of a hexadecimal digit character, accepting both cases. -/
def hexVal (c : Char) : Option Nat :=
  if 48 ≤ c.toNat ∧ c.toNat ≤ 57 then some (c.toNat - 48)
  else if 97 ≤ c.toNat ∧ c.toNat ≤ 102 then some (c.toNat - 87)
  else if 65 ≤ c.toNat ∧ c.toNat ≤ 70 then some (c.toNat - 55)
  else none

/-- Modelled from the spec: the reserved delimiter bytes that must stay
percent-encoded are slash, question mark, ampersand, equals, percent and
space. -/
def reservedByte (b : Nat) : Bool :=
  b = 47 || b = 63 || b = 38 || b = 61 || b = 37 || b = 32

/-- Modelled from the spec: an escape is decoded to a literal character
exactly when its byte is printable, non-reserved ASCII. -/
def escDecodable (b : Nat) : Bool := 33 ≤ b && b ≤ 126 && !reservedByte b

/-- Modelled from the spec: percent-escape normalization. Hex digits of
escapes are lowercased; escapes whose decoded byte is printable non-reserved
ASCII become the literal character; reserved or non-ASCII bytes stay
percent-encoded with case-normalized hex. -/
def normalizeEscapes : List Char → List Char
  | [] => []
  | '%' :: c1 :: c2 :: rest =>
    match hexVal c1, hexVal c2 with
    | some b1, some b2 =>
      if escDecodable (16 * b1 + b2) then Char.ofNat (16 * b1 + b2) :: normalizeEscapes rest
      else '%' :: lowerChar c1 :: lowerChar c2 :: normalizeEscapes rest
    | _, _ => '%' :: normalizeEscapes (c1 :: c2 :: rest)
  | c :: rest => c :: normalizeEscapes rest

/-- Modelled from the spec: the option registry, a record with one boolean
per recognized option name. Mirrors the SurtrOptions handle of the native
interface. -/
structure SurtrOptions where
  public_suffix : Bool
  surt : Bool
  reverse_ipaddr : Bool
  with_scheme : Bool
  trailing_comma : Bool
  host_lowercase : Bool
  host_massage : Bool
  auth_strip_user : Bool
  auth_strip_pass : Bool
  port_strip_default : Bool
  path_strip_empty : Bool
  path_lowercase : Bool
  path_strip_session_id : Bool
  path_strip_trailing_slash_unless_empty : Bool
  query_strip_session_id : Bool
  query_lowercase : Bool
  query_alpha_reorder : Bool
  query_strip_empty : Bool
deriving DecidableEq

/-- Modelled from the spec: the documented defaults, as exercised by the
default-option tests of the Go suite (surt and reverse_ipaddr on, the
scheme-and-parenthesis form and the trailing comma off, host and query
normalization rules on, the public suffix rule off). Mirrors the
init_options constructor of the native interface. -/
def init_options : SurtrOptions where
  public_suffix := false
  surt := true
  reverse_ipaddr := true
  with_scheme := false
  trailing_comma := false
  host_lowercase := true
  host_massage := true
  auth_strip_user := true
  auth_strip_pass := true
  port_strip_default := true
  path_strip_empty := false
  path_lowercase := true
  path_strip_session_id := true
  path_strip_trailing_slash_unless_empty := true
  query_strip_session_id := true
  query_lowercase := true
  query_alpha_reorder := true
  query_strip_empty := true

/-- Modelled from the native set_option entry point: stores a value under a
recognized option name and ignores unknown names. -/
def setOption (o : SurtrOptions) (name : String) (value : Bool) : SurtrOptions :=
  if name = "public_suffix" then { o with public_suffix := value }
  else if name = "surt" then { o with surt := value }
  else if name = "reverse_ipaddr" then { o with reverse_ipaddr := value }
  else if name = "with_scheme" then { o with with_scheme := value }
  else if name = "trailing_comma" then { o with trailing_comma := value }
  else if name = "host_lowercase" then { o with host_lowercase := value }
  else if name = "host_massage" then { o with host_massage := value }
  else if name = "auth_strip_user" then { o with auth_strip_user := value }
  else if name = "auth_strip_pass" then { o with auth_strip_pass := value }
  else if name = "port_strip_default" then { o with port_strip_default := value }
  else if name = "path_strip_empty" then { o with path_strip_empty := value }
  else if name = "path_lowercase" then { o with path_lowercase := value }
  else if name = "path_strip_session_id" then { o with path_strip_session_id := value }
  else if name = "path_strip_trailing_slash_unless_empty" then
    { o with path_strip_trailing_slash_unless_empty := value }
  else if name = "query_strip_session_id" then { o with query_strip_session_id := value }
  else if name = "query_lowercase" then { o with query_lowercase := value }
  else if name = "query_alpha_reorder" then { o with query_alpha_reorder := value }
  else if name = "query_strip_empty" then { o with query_strip_empty := value }
  else o

/-- Resolution of a partial option mapping against the defaults, as the Go
binding performs it: start from init_options and store each supplied entry. -/
def resolveOptions (m : List (String × Bool)) : SurtrOptions :=
  m.foldl (fun o kv => setOption o kv.1 kv.2) init_options

/-- Modelled from the spec: the error taxonomy of the engine. -/
inductive SurtError where
  | EmptyUrl : SurtError
  | UrlParseError : List Char → SurtError
  | NoSchemeFound : SurtError
  | CanonicalizerError : List Char → SurtError
deriving DecidableEq

/-- Modelled from the spec: the authority component of a host-bearing URL. -/
structure Authority where
  user : Option (List Char)
  password : Option (List Char)
  host : List Char
  port : Option Nat
deriving DecidableEq

/-- Query pairs are a key together with an optional value; a bare flag has
no value. -/
abbrev QueryPair := List Char × Option (List Char)

/-- Modelled from the spec: the working representation of a parsed URL.
The authority is present exactly for host-bearing schemes; for opaque
schemes the original input is retained in raw and emitted verbatim. -/
structure ParsedURL where
  scheme : List Char
  authority : Option Authority
  path : List (List Char)
  query : Option (List QueryPair)
  fragment : Option (List Char)
  raw : List Char
deriving DecidableEq

/-- Modelled from the spec: the opaque scheme set. -/
def opaqueSchemes : List (List Char) :=
  ["dns".toList, "mailto".toList, "filedesc".toList, "warcinfo".toList]

/-- Splits the remainder after the double slash into the authority and what
follows it (the first slash or question mark ends the authority). -/
def spanAuthority : List Char → List Char × List Char
  | [] => ([], [])
  | c :: cs =>
    if c = '/' ∨ c = '?' then ([], c :: cs)
    else
      let (a, b) := spanAuthority cs
      (c :: a, b)

/-- Splits a trailing numeric port off a host-and-port string. -/
def parsePort (s : List Char) : List Char × Option Nat :=
  match splitLast ':' s with
  | some (h, p) =>
    if !p.isEmpty && p.all isDigitChar then (h, some (natOfDigits p)) else (s, none)
  | none => (s, none)

/-- Modelled from the spec: parses user, optional password, host and
optional port from the authority text. -/
def parseAuthority (s : List Char) : Authority :=
  let (userinfo, hostport) :=
    match splitFirst '@' s with
    | some (u, hp) => (some u, hp)
    | none => (none, s)
  let (user, password) :=
    match userinfo with
    | none => (none, none)
    | some u =>
      match splitFirst ':' u with
      | some (nm, pw) => (some nm, some pw)
      | none => (some u, none)
  let (host, port) := parsePort hostport
  { user := user, password := password, host := host, port := port }

/-- Modelled from the spec: the path is split on slashes into segments; an
absent path is the empty segment list. -/
def parsePathSegments (s : List Char) : List (List Char) :=
  match s with
  | [] => []
  | '/' :: rest => splitOnChar '/' rest
  | other => splitOnChar '/' other

/-- Splits one query token at its first equals sign into a key and an
optional value; a token without an equals sign is a bare flag. -/
def parseQueryPair (tok : List Char) : QueryPair :=
  match splitFirst '=' tok with
  | some (k, v) => (k, some v)
  | none => (tok, none)

/-- Modelled from the spec: the query text is split on ampersands only;
semicolons are ordinary value characters. -/
def parseQueryPairs (s : List Char) : List QueryPair :=
  match s with
  | [] => []
  | other => (splitOnChar '&' other).map parseQueryPair

/-- Modelled from the spec: the URL parser. The scheme runs up to the first
colon; a missing colon is NoSchemeFound, the empty input is EmptyUrl; for a
scheme in the opaque set, or a remainder that does not start with a double
slash, the input is retained verbatim with no authority. -/
def parseURL (url : List Char) : Except SurtError ParsedURL :=
  if url = [] then .error .EmptyUrl
  else
    match splitFirst ':' url with
    | none => .error .NoSchemeFound
    | some (rawScheme, rest) =>
      let scheme := lowerChars rawScheme
      if scheme ∈ opaqueSchemes then
        .ok { scheme := scheme, authority := none, path := [], query := none,
              fragment := none, raw := url }
      else
        match rest with
        | '/' :: '/' :: rest2 =>
          let (main, fragment) :=
            match splitFirst '#' rest2 with
            | some (m, f) => (m, some f)
            | none => (rest2, none)
          let (auth, afterAuth) := spanAuthority main
          let (pathStr, queryStr) :=
            match afterAuth with
            | '?' :: q => (([] : List Char), some q)
            | other =>
              match splitFirst '?' other with
              | some (pa, q) => (pa, some q)
              | none => (other, none)
          .ok { scheme := scheme,
                authority := some (parseAuthority auth),
                path := parsePathSegments pathStr,
                query := queryStr.map parseQueryPairs,
                fragment := fragment,
                raw := url }
        | _ =>
          .ok { scheme := scheme, authority := none, path := [], query := none,
                fragment := none, raw := url }

/-- Strips one leading www. from the host. -/
def stripWWW (host : List Char) : List Char :=
  if "www.".toList.isPrefixOf host then host.drop 4 else host

/-- Modelled from the spec: the public suffix rule consults an external
registrable-domain table that is not part of this repository; the option
defaults to off and no observed behavior exercises it, so the lookup is
modelled as the identity on the host. -/
def applyPublicSuffix (host : List Char) : List Char := host

/-- Modelled from the spec: the known session-id query keys; the design
document names PHPSESSID as the known key, matched case-insensitively. -/
def sessionIdKeys : List (List Char) := ["phpsessid".toList]

/-- Tests whether a query key is a known session-id key. -/
def isSessionIdKey (k : List Char) : Bool := decide (lowerChars k ∈ sessionIdKeys)

/-- Modelled from the spec: path segments matching known session-token
shapes, such as the parenthesized ASP.NET tokens, are stripped. -/
def isPathSessionSeg (s : List Char) : Bool :=
  "(s(".toList.isPrefixOf (lowerChars s) && "))".toList.isSuffixOf (lowerChars s)

/-- Serialized form of one query pair: the key alone for a bare flag, or
key, equals sign, value. -/
def serializePair (p : QueryPair) : List Char :=
  match p.2 with
  | none => p.1
  | some v => p.1 ++ '=' :: v

/-- Lexicographic comparison of strings by character code. -/
def leChars : List Char → List Char → Bool
  | [], _ => true
  | _ :: _, [] => false
  | a :: as, b :: bs =>
    if a.toNat < b.toNat then true
    else if b.toNat < a.toNat then false
    else leChars as bs

/-- Order on query pairs: lexicographic order of the serialized tokens. -/
def pairLE (x y : QueryPair) : Prop := leChars (serializePair x) (serializePair y) = true

instance : DecidableRel pairLE := fun x y => inferInstanceAs (Decidable (_ = true))

/-- Modelled from the spec: the stable sort of query pairs by serialized
token, realized as an insertion sort. -/
def sortQuery (l : List QueryPair) : List QueryPair := l.insertionSort pairLE

/-- Drops a final empty path segment unless the path would become entirely
empty. -/
def stripTrailingEmptySeg (path : List (List Char)) : List (List Char) :=
  if 2 ≤ path.length ∧ path.getLast? = some [] then path.dropLast else path

/-- Percent-escape normalization of one query pair. -/
def normalizeQueryPair (p : QueryPair) : QueryPair :=
  (normalizeEscapes p.1, p.2.map normalizeEscapes)

/-- Lowercasing of one query pair, key and value independently. -/
def lowerQueryPair (p : QueryPair) : QueryPair :=
  (lowerChars p.1, p.2.map lowerChars)

/-- Tests whether a port is the well-known default of the scheme. -/
def isDefaultPort (scheme : List Char) (port : Nat) : Bool :=
  (scheme == "http".toList && port == 80) || (scheme == "https".toList && port == 443)

/-- Modelled from the spec: the canonicalizer. A no-op for opaque schemes;
otherwise applies the normalization rules in the fixed documented order,
each gated by its option. -/
def canonicalizeURL (p : ParsedURL) (o : SurtrOptions) : Except SurtError ParsedURL :=
  match p.authority with
  | none => .ok p
  | some a =>
    let host := if o.host_lowercase then lowerChars a.host else a.host
    let host := if o.host_massage then stripWWW host else host
    let host := if o.public_suffix then applyPublicSuffix host else host
    let user := if o.auth_strip_user then none else a.user
    let password := if o.auth_strip_user || o.auth_strip_pass then none else a.password
    let port :=
      match a.port with
      | some n => if o.port_strip_default && isDefaultPort p.scheme n then none else some n
      | none => none
    let path := p.path.map normalizeEscapes
    let path := if o.path_lowercase then path.map lowerChars else path
    let path := if o.path_strip_session_id then path.filter (fun s => !isPathSessionSeg s) else path
    let path := if o.path_strip_trailing_slash_unless_empty then stripTrailingEmptySeg path else path
    let path := if o.path_strip_empty && (path == ([] : List (List Char)) || path == [[]]) then [] else path
    let query := p.query.map (List.map normalizeQueryPair)
    let query :=
      if o.query_strip_session_id then query.map (List.filter (fun q => !isSessionIdKey q.1))
      else query
    let query := if o.query_lowercase then query.map (List.map lowerQueryPair) else query
    let query := if o.query_alpha_reorder then query.map sortQuery else query
    let query :=
      if o.query_strip_empty then
        match query with
        | some [] => none
        | other => other
      else query
    .ok { p with authority := some { user := user, password := password, host := host, port := port },
                 path := path, query := query }

/-- Modelled from the spec: the reversed host token of the SURT key. A
literal IPv4 address has its octets reversed and comma-joined only when
reverse_ipaddr is on, and keeps its dotted form otherwise; any other host
has its dot-separated labels reversed and comma-joined. -/
def hostToSurt (host : List Char) (o : SurtrOptions) : List Char :=
  if isIPv4 host then
    if o.reverse_ipaddr then joinSep ',' (splitOnChar '.' host).reverse else host
  else joinSep ',' (splitOnChar '.' host).reverse

/-- Serialized path: slash-joined segments with a leading slash exactly when
the path is non-empty. -/
def pathString (path : List (List Char)) : List Char :=
  match path with
  | [] => []
  | segs => '/' :: joinSep '/' segs

/-- Serialized query: a question mark followed by the ampersand-joined
tokens, or nothing when the query is absent. -/
def queryString (query : Option (List QueryPair)) : List Char :=
  match query with
  | none => []
  | some qs => '?' :: joinSep '&' (qs.map serializePair)

/-- Conventional reassembly of a canonicalized host-bearing URL, used when
the surt option is off. -/
def plainFormat (p : ParsedURL) (a : Authority) : List Char :=
  p.scheme ++ "://".toList
    ++ (match a.user with
        | some u =>
          u ++ (match a.password with | some pw => ':' :: pw | none => []) ++ ['@']
        | none => [])
    ++ a.host
    ++ (match a.port with | some n => ':' :: Nat.toDigits 10 n | none => [])
    ++ pathString p.path ++ queryString p.query

/-- Modelled from the spec: the SURT formatter. Opaque input is returned
verbatim from raw; otherwise the key is the optional scheme-and-parenthesis
form, the reversed host token, the optional trailing comma, the closing
parenthesis, then path and query. -/
def formatURL (p : ParsedURL) (o : SurtrOptions) : List Char :=
  match p.authority with
  | none => p.raw
  | some a =>
    if o.surt then
      (if o.with_scheme then p.scheme ++ "://(".toList else [])
        ++ hostToSurt a.host o
        ++ (if o.trailing_comma then [','] else [])
        ++ ')' :: (pathString p.path ++ queryString p.query)
    else plainFormat p a

/-- Modelled from the spec: the native entry point taking an explicit option
set; parse, canonicalize, format. -/
def generate_surt_with_options (url : List Char) (o : SurtrOptions) : Except SurtError (List Char) :=
  match parseURL url with
  | .error e => .error e
  | .ok p =>
    match canonicalizeURL p o with
    | .error e => .error e
    | .ok q => .ok (formatURL q o)

/-- Modelled from the spec: the native entry point with the default options. -/
def generate_surt (url : List Char) : Except SurtError (List Char) :=
  generate_surt_with_options url init_options

/-- Result shape of the Go functions: the output string and an optional
error, as the pair returned by the Go binding. -/
abbrev GoResult := String × Option SurtError

/-- Converts a native result into the pair the Go binding returns: the
output with no error, or the empty string with the error. -/
def goResult (r : Except SurtError (List Char)) : GoResult :=
  match r with
  | .ok out => (String.mk out, none)
  | .error e => ("", some e)

/-- Translation of checkString from go_surtr.go: the empty URL yields the
empty string and the EmptyUrl failure, any other URL passes through. -/
def checkString (url : String) : String × Option SurtError :=
  if url = "" then ("", some SurtError.EmptyUrl) else (url, none)

/-- Translation of generateSurtFromURLOptions from go_surtr.go: checks the
URL, then calls the native engine with the resolved options when a map is
supplied, and with the defaults when the map is nil. -/
def generateSurtFromURLOptions (url : String) (options : Option (List (String × Bool))) :
    GoResult :=
  match checkString url with
  | (_, some e) => ("", some e)
  | (u, none) =>
    match options with
    | some m => goResult (generate_surt_with_options u.data (resolveOptions m))
    | none => goResult (generate_surt u.data)

/-- Translation of GenerateSurtFromURL from go_surtr.go: checks the URL,
forwards to generateSurtFromURLOptions with the first variadic map when any
maps are supplied, and calls the native default entry point otherwise. -/
def GenerateSurtFromURL (url : String) (options : List (Option (List (String × Bool)))) :
    GoResult :=
  match checkString url with
  | (_, some e) => ("", some e)
  | (u, none) =>
    match options with
    | m1 :: _ => generateSurtFromURLOptions u m1
    | [] => goResult (generate_surt u.data)

/-! Helper lemmas about the token order used by the query sort. -/

theorem leChars_refl (a : List Char) : leChars a a = true := by
  induction a with
  | nil => rfl
  | cons c cs ih => simp [leChars, ih]

theorem leChars_total (a b : List Char) : leChars a b = true ∨ leChars b a = true := by
  induction a generalizing b with
  | nil => left; rfl
  | cons c cs ih =>
    cases b with
    | nil => right; rfl
    | cons d ds =>
      simp only [leChars]
      rcases Nat.lt_trichotomy c.toNat d.toNat with h | h | h
      · left; simp [h]
      · have h1 : ¬ c.toNat < d.toNat := by omega
        have h2 : ¬ d.toNat < c.toNat := by omega
        rcases ih ds with h3 | h3
        · left; simp [h1, h2, h3]
        · right; simp [h1, h2, h3]
      · right; simp [h]

theorem leChars_trans (a b c : List Char) (h1 : leChars a b = true) (h2 : leChars b c = true) :
    leChars a c = true := by
  induction a generalizing b c with
  | nil => rfl
  | cons x xs ih =>
    cases b with
    | nil => simp [leChars] at h1
    | cons y ys =>
      cases c with
      | nil => simp [leChars] at h2
      | cons z zs =>
        simp only [leChars] at h1 h2 ⊢
        by_cases hxy : x.toNat < y.toNat
        · by_cases hyz : y.toNat < z.toNat
          · simp [show x.toNat < z.toNat by omega]
          · by_cases hzy : z.toNat < y.toNat
            · simp [hyz, hzy] at h2
            · simp [show x.toNat < z.toNat by omega]
        · by_cases hyx : y.toNat < x.toNat
          · simp [hxy, hyx] at h1
          · by_cases hyz : y.toNat < z.toNat
            · simp [show x.toNat < z.toNat by omega]
            · by_cases hzy : z.toNat < y.toNat
              · simp [hyz, hzy] at h2
              · have hnlt : ¬ x.toNat < z.toNat := by omega
                have hnlt2 : ¬ z.toNat < x.toNat := by omega
                simp only [hnlt, hnlt2, if_false]
                exact ih ys zs (by simpa [hxy, hyx] using h1) (by simpa [hyz, hzy] using h2)

instance : IsTotal QueryPair pairLE := ⟨fun _ _ => leChars_total _ _⟩

instance : IsTrans QueryPair pairLE := ⟨fun _ _ _ => leChars_trans _ _ _⟩

theorem filter_orderedInsert (q : QueryPair) (l : List QueryPair) (t : List Char) :
    (l.orderedInsert pairLE q).filter (fun p => decide (serializePair p = t)) =
      (if serializePair q = t then [q] else [])
        ++ l.filter (fun p => decide (serializePair p = t)) := by
  induction l with
  | nil =>
    simp only [List.orderedInsert, List.filter]
    by_cases h : serializePair q = t <;> simp [h]
  | cons p ps ih =>
    by_cases hle : pairLE q p
    · rw [List.orderedInsert_of_le _ _ hle]
      simp only [List.filter_cons]
      by_cases hq : serializePair q = t <;> simp [hq]
    · simp only [List.orderedInsert, if_neg hle, List.filter_cons]
      by_cases hp : serializePair p = t
      · have hq : serializePair q ≠ t := by
          intro hq
          exact hle (by unfold pairLE; rw [hq, hp]; exact leChars_refl t)
        simp [hp, hq, ih]
      · simp [hp, ih]

theorem filter_sortQuery (l : List QueryPair) (t : List Char) :
    (sortQuery l).filter (fun p => decide (serializePair p = t)) =
      l.filter (fun p => decide (serializePair p = t)) := by
  induction l with
  | nil => rfl
  | cons q ps ih =>
    have hstep : sortQuery (q :: ps) = (sortQuery ps).orderedInsert pairLE q := rfl
    rw [hstep, filter_orderedInsert, ih, List.filter_cons]
    by_cases hq : serializePair q = t <;> simp [hq]

/-- C9: GenerateSurtFromURL applied to the empty string always returns the
EmptyUrl failure together with the empty output string, for every variadic
options list and for every single options map, before any further
processing happens. -/
theorem empty_url_always_errors :
    (∀ opts : List (Option (List (String × Bool))),
      GenerateSurtFromURL "" opts = ("", some SurtError.EmptyUrl))
    ∧ (∀ m : Option (List (String × Bool)),
      generateSurtFromURLOptions "" m = ("", some SurtError.EmptyUrl)) :=
  ⟨fun _ => rfl, fun _ => rfl⟩

/-- C10: the variadic GenerateSurtFromURL consults only the first options
map: with any maps supplied it returns exactly what generateSurtFromURLOptions
returns on the first map, the rest being ignored, and a nil first map gives
the same result as the call with no options at all. -/
theorem variadic_consults_first_map :
    (∀ (url : String) (m1 : Option (List (String × Bool)))
        (rest : List (Option (List (String × Bool)))),
      url ≠ "" →
      GenerateSurtFromURL url (m1 :: rest) = generateSurtFromURLOptions url m1)
    ∧ (∀ url : String, url ≠ "" →
      generateSurtFromURLOptions url none = GenerateSurtFromURL url []) := by
  constructor
  · intro url m1 rest h
    unfold GenerateSurtFromURL checkString
    rw [if_neg h]
  · intro url h
    unfold GenerateSurtFromURL generateSurtFromURLOptions checkString
    rw [if_neg h]

/-- Witness for C10 at a concrete URL: two extra maps after the first are
ignored, and the nil map agrees with the no-options call. -/
theorem variadic_consults_first_map_witness :
    GenerateSurtFromURL "http://archive.org/"
        [some [("trailing_comma", true)], some [("with_scheme", true)], none]
      = generateSurtFromURLOptions "http://archive.org/" (some [("trailing_comma", true)])
    ∧ generateSurtFromURLOptions "http://archive.org/" none
      = GenerateSurtFromURL "http://archive.org/" [] :=
  ⟨variadic_consults_first_map.1 "http://archive.org/" _ _ (by decide),
   variadic_consults_first_map.2 "http://archive.org/" (by decide)⟩

/-- C2: any input whose scheme is in the opaque set is returned unchanged
with no error, under every option set, every options map, and the
no-options call, including with_scheme and trailing_comma both on. -/
theorem opaque_scheme_identity :
    (∀ (url sch rest : List Char) (o : SurtrOptions),
        splitFirst ':' url = some (sch, rest) →
        lowerChars sch ∈ opaqueSchemes →
        generate_surt_with_options url o = .ok url)
    ∧ (∀ (url : String) (sch rest : List Char) (m : Option (List (String × Bool))),
        splitFirst ':' url.data = some (sch, rest) →
        lowerChars sch ∈ opaqueSchemes →
        generateSurtFromURLOptions url m = (url, none))
    ∧ GenerateSurtFromURL "dns:archive.org" [] = ("dns:archive.org", none)
    ∧ generateSurtFromURLOptions "dns:archive.org"
        (some [("with_scheme", true), ("trailing_comma", true)]) = ("dns:archive.org", none)
    ∧ GenerateSurtFromURL "warcinfo:foo.warc.gz" [] = ("warcinfo:foo.warc.gz", none) := by
  have key : ∀ (url sch rest : List Char) (o : SurtrOptions),
      splitFirst ':' url = some (sch, rest) →
      lowerChars sch ∈ opaqueSchemes →
      generate_surt_with_options url o = .ok url := by
    intro url sch rest o hsplit hmem
    have hne : url ≠ [] := by
      intro h
      subst h
      simp [splitFirst] at hsplit
    unfold generate_surt_with_options parseURL
    rw [if_neg hne, hsplit]
    simp only [if_pos hmem]
    simp [canonicalizeURL, formatURL]
  refine ⟨key, ?_, by decide, by decide, by decide⟩
  intro url sch rest m hsplit hmem
  have hne : url ≠ "" := by
    intro h
    subst h
    simp [splitFirst] at hsplit
  unfold generateSurtFromURLOptions checkString
  rw [if_neg hne]
  cases m with
  | some mm =>
    show goResult (generate_surt_with_options url.data (resolveOptions mm)) = (url, none)
    rw [key url.data sch rest (resolveOptions mm) hsplit hmem]
    rfl
  | none =>
    show goResult (generate_surt url.data) = (url, none)
    unfold generate_surt
    rw [key url.data sch rest init_options hsplit hmem]
    rfl

/-- Witness for C2: the opaque identity applied at dns:archive.org with the
default option set. -/
theorem opaque_scheme_identity_witness :
    generate_surt_with_options "dns:archive.org".toList init_options
      = .ok "dns:archive.org".toList :=
  opaque_scheme_identity.1 "dns:archive.org".toList "dns".toList "archive.org".toList
    init_options (by decide) (by decide)

/-- C1: for every host-bearing URL whose canonical host is not an IP
literal, the SURT key under the default toggles is the dot-separated host
labels reversed and comma-joined, followed by the closing parenthesis and
the serialized path and query; in particular the two documented examples
hold end to end. -/
theorem surt_reverses_hostname_labels :
    (∀ (p : ParsedURL) (a : Authority) (o : SurtrOptions),
        p.authority = some a →
        isIPv4 a.host = false →
        o.surt = true → o.with_scheme = false → o.trailing_comma = false →
        formatURL p o =
          joinSep ',' (splitOnChar '.' a.host).reverse
            ++ ')' :: (pathString p.path ++ queryString p.query))
    ∧ GenerateSurtFromURL "http://www.archive.org/" [] = ("org,archive)/", none)
    ∧ GenerateSurtFromURL "whois://whois.isoc.org.il/shaveh.co.il" []
        = ("il,org,isoc,whois)/shaveh.co.il", none) := by
  refine ⟨?_, by decide, by decide⟩
  intro p a o ha hip hs hw ht
  unfold formatURL
  rw [ha]
  simp [hs, hw, ht, hostToSurt, hip]

/-- Witness for C1: the host reversal shape applied at the canonicalized
form of the first documented example. -/
theorem surt_reverses_hostname_labels_witness :
    formatURL
        { scheme := "http".toList,
          authority := some { user := none, password := none,
                              host := "archive.org".toList, port := none },
          path := [[]], query := none, fragment := none, raw := [] }
        init_options
      = joinSep ',' (splitOnChar '.' "archive.org".toList).reverse
          ++ ')' :: (pathString [[]] ++ queryString none) :=
  surt_reverses_hostname_labels.1 _ _ init_options rfl (by decide) rfl rfl rfl

/-- C5: for a literal IPv4 host the SURT host token is the reversed
comma-joined octets when reverse_ipaddr is on and the untouched dotted
address when it is off, as the formatter shape shows for every such URL and
as the three option combinations of the test suite show end to end. -/
theorem ipv4_host_reversal_option :
    (∀ (p : ParsedURL) (a : Authority) (o : SurtrOptions),
        p.authority = some a →
        isIPv4 a.host = true →
        o.surt = true → o.with_scheme = false → o.trailing_comma = false →
        formatURL p o =
          (if o.reverse_ipaddr then joinSep ',' (splitOnChar '.' a.host).reverse else a.host)
            ++ ')' :: (pathString p.path ++ queryString p.query))
    ∧ generateSurtFromURLOptions "http://192.168.1.254/info/" (some [])
        = ("254,1,168,192)/info", none)
    ∧ generateSurtFromURLOptions "http://192.168.1.254/info/" (some [("reverse_ipaddr", true)])
        = ("254,1,168,192)/info", none)
    ∧ generateSurtFromURLOptions "http://192.168.1.254/info/" (some [("reverse_ipaddr", false)])
        = ("192.168.1.254)/info", none) := by
  refine ⟨?_, by decide, by decide, by decide⟩
  intro p a o ha hip hs hw ht
  unfold formatURL
  rw [ha]
  simp [hs, hw, ht, hostToSurt, hip]

/-- Witness for C5: the IPv4 formatter shape applied at the canonicalized
form of the test URL with the default option set. -/
theorem ipv4_host_reversal_option_witness :
    formatURL
        { scheme := "http".toList,
          authority := some { user := none, password := none,
                              host := "192.168.1.254".toList, port := none },
          path := [['i', 'n', 'f', 'o']], query := none, fragment := none, raw := [] }
        init_options
      = (if init_options.reverse_ipaddr
          then joinSep ',' (splitOnChar '.' "192.168.1.254".toList).reverse
          else "192.168.1.254".toList)
          ++ ')' :: (pathString [['i', 'n', 'f', 'o']] ++ queryString none) :=
  ipv4_host_reversal_option.1 _ _ init_options rfl (by decide) rfl rfl rfl

/-- C6: the SURT key carries the scheme-and-opening-parenthesis form exactly
when with_scheme is on: with it on the formatter output is the scheme, the
colon-slash-slash-parenthesis text, then the rest of the key, and with it
off the output begins directly with the reversed host token; the example
URL shows both settings and the omitted-options form end to end, with the
two outputs respectively carrying and not carrying the scheme marker. -/
theorem with_scheme_toggle :
    (∀ (p : ParsedURL) (a : Authority) (o : SurtrOptions),
        p.authority = some a → o.surt = true →
        (o.with_scheme = true →
          formatURL p o = p.scheme ++ "://(".toList
            ++ (hostToSurt a.host o ++ (if o.trailing_comma then [','] else [])
                ++ ')' :: (pathString p.path ++ queryString p.query)))
        ∧ (o.with_scheme = false →
          formatURL p o = hostToSurt a.host o ++ (if o.trailing_comma then [','] else [])
            ++ ')' :: (pathString p.path ++ queryString p.query)))
    ∧ generateSurtFromURLOptions "http://www.example.com/" (some [("with_scheme", true)])
        = ("http://(com,example)/", none)
    ∧ generateSurtFromURLOptions "http://www.example.com/" (some [("with_scheme", false)])
        = ("com,example)/", none)
    ∧ GenerateSurtFromURL "http://www.example.com/" [] = ("com,example)/", none)
    ∧ "http://(".toList.isPrefixOf "http://(com,example)/".toList = true
    ∧ "http://(".toList.isPrefixOf "com,example)/".toList = false := by
  refine ⟨?_, by decide, by decide, by decide, by decide, by decide⟩
  intro p a o ha hs
  constructor <;> intro hw <;>
    (unfold formatURL; rw [ha]; simp [hs, hw])

/-- Witness for C6: both directions of the formatter shape, at the
canonicalized example with the scheme marker on and with it off. -/
theorem with_scheme_toggle_witness :
    (formatURL
        { scheme := "http".toList,
          authority := some { user := none, password := none,
                              host := "example.com".toList, port := none },
          path := [[]], query := none, fragment := none, raw := [] }
        { init_options with with_scheme := true }
      = "http".toList ++ "://(".toList
          ++ (hostToSurt "example.com".toList { init_options with with_scheme := true }
              ++ (if ({ init_options with with_scheme := true } : SurtrOptions).trailing_comma
                  then [','] else [])
              ++ ')' :: (pathString [[]] ++ queryString none)))
    ∧ (formatURL
        { scheme := "http".toList,
          authority := some { user := none, password := none,
                              host := "example.com".toList, port := none },
          path := [[]], query := none, fragment := none, raw := [] }
        init_options
      = hostToSurt "example.com".toList init_options
          ++ (if init_options.trailing_comma then [','] else [])
          ++ ')' :: (pathString [[]] ++ queryString none)) :=
  ⟨(with_scheme_toggle.1 _ _ { init_options with with_scheme := true } rfl rfl).1 rfl,
   (with_scheme_toggle.1 _ _ init_options rfl rfl).2 rfl⟩

/-- C7: with trailing_comma on the formatter inserts exactly one comma
immediately before the closing parenthesis, after the last host label or
octet, independently of with_scheme; the two test cases show it end to end
without and with the scheme marker. -/
theorem trailing_comma_before_close :
    (∀ (p : ParsedURL) (a : Authority) (o : SurtrOptions),
        p.authority = some a → o.surt = true → o.trailing_comma = true →
        formatURL p o =
          (if o.with_scheme then p.scheme ++ "://(".toList else [])
            ++ hostToSurt a.host o ++ ',' :: ')' :: (pathString p.path ++ queryString p.query))
    ∧ generateSurtFromURLOptions "http://archive.org/goo/?a=2&b&a=1"
        (some [("trailing_comma", true)])
        = ("org,archive,)/goo?a=1&a=2&b", none)
    ∧ generateSurtFromURLOptions "http://www.example.com/"
        (some [("with_scheme", true), ("trailing_comma", true)])
        = ("http://(com,example,)/", none) := by
  refine ⟨?_, by decide, by decide⟩
  intro p a o ha hs ht
  unfold formatURL
  rw [ha]
  simp [hs, ht]

/-- Witness for C7: the trailing comma shape applied at the canonicalized
first test case with trailing_comma switched on. -/
theorem trailing_comma_before_close_witness :
    formatURL
        { scheme := "http".toList,
          authority := some { user := none, password := none,
                              host := "archive.org".toList, port := none },
          path := [['g', 'o', 'o']], query := none, fragment := none, raw := [] }
        { init_options with trailing_comma := true }
      = (if ({ init_options with trailing_comma := true } : SurtrOptions).with_scheme
          then "http".toList ++ "://(".toList else [])
          ++ hostToSurt "archive.org".toList { init_options with trailing_comma := true }
          ++ ',' :: ')' :: (pathString [['g', 'o', 'o']] ++ queryString none) :=
  trailing_comma_before_close.1 _ _ { init_options with trailing_comma := true } rfl rfl rfl

/-- C3: with query_alpha_reorder on, which is the default, the emitted
query pairs are a stable sort of the input pairs by the lexicographic order
of their serialized tokens: the sort is adjacently ordered, is a
permutation of the input, and preserves the relative order of pairs with
equal tokens; the two test queries come out reordered as documented. -/
theorem query_reorder_stable_sort :
    (∀ l : List QueryPair,
        List.Sorted pairLE (sortQuery l)
        ∧ (sortQuery l).Perm l
        ∧ ∀ t : List Char,
            (sortQuery l).filter (fun p => decide (serializePair p = t)) =
              l.filter (fun p => decide (serializePair p = t)))
    ∧ init_options.query_alpha_reorder = true
    ∧ GenerateSurtFromURL "http://archive.org/goo/?b&a" [] = ("org,archive)/goo?a&b", none)
    ∧ GenerateSurtFromURL "http://archive.org/goo/?a=2&b&a=1" []
        = ("org,archive)/goo?a=1&a=2&b", none) := by
  refine ⟨?_, rfl, by decide, by decide⟩
  intro l
  exact ⟨List.sorted_insertionSort pairLE l, List.perm_insertionSort pairLE l,
    fun t => filter_sortQuery l t⟩

/-- C4: percent-escape normalization lowercases the hex digits of every
escape, decodes an escape to its literal character exactly when the byte is
printable non-reserved ASCII, and otherwise keeps it percent-encoded with
case-normalized hex; the four documented escapes behave as stated and the
multi-byte example goes through the whole pipeline unchanged apart from hex
case. -/
theorem percent_escape_normalization :
    (∀ (c1 c2 : Char) (rest : List Char) (b1 b2 : Nat),
        hexVal c1 = some b1 → hexVal c2 = some b2 →
        normalizeEscapes ('%' :: c1 :: c2 :: rest) =
          if escDecodable (16 * b1 + b2) then
            Char.ofNat (16 * b1 + b2) :: normalizeEscapes rest
          else '%' :: lowerChar c1 :: lowerChar c2 :: normalizeEscapes rest)
    ∧ normalizeEscapes "%28".toList = "(".toList
    ∧ normalizeEscapes "%3B".toList = ";".toList
    ∧ normalizeEscapes "%20".toList = "%20".toList
    ∧ normalizeEscapes "%C5%82".toList = "%c5%82".toList
    ∧ GenerateSurtFromURL "http://example.com/app?item=Wroc%C5%82aw" []
        = ("com,example)/app?item=wroc%c5%82aw", none) := by
  refine ⟨?_, by decide, by decide, by decide, by decide, by decide⟩
  intro c1 c2 rest b1 b2 h1 h2
  have step : normalizeEscapes ('%' :: c1 :: c2 :: rest) =
      match hexVal c1, hexVal c2 with
      | some b1, some b2 =>
        if escDecodable (16 * b1 + b2) then Char.ofNat (16 * b1 + b2) :: normalizeEscapes rest
        else '%' :: lowerChar c1 :: lowerChar c2 :: normalizeEscapes rest
      | _, _ => '%' :: normalizeEscapes (c1 :: c2 :: rest) := rfl
  rw [step, h1, h2]

/-- Witness for C4: the escape characterization applied at the hex digits
of the %28 example. -/
theorem percent_escape_normalization_witness :
    normalizeEscapes ('%' :: '2' :: '8' :: []) =
      if escDecodable (16 * 2 + 8) then Char.ofNat (16 * 2 + 8) :: normalizeEscapes []
      else '%' :: lowerChar '2' :: lowerChar '8' :: normalizeEscapes [] :=
  percent_escape_normalization.1 '2' '8' [] 2 8 (by decide) (by decide)

theorem splitOnChar_of_not_mem (sep : Char) (s : List Char) (h : sep ∉ s) :
    splitOnChar sep s = [s] := by
  induction s with
  | nil => rfl
  | cons c cs ih =>
    have hc : ¬ c = sep := fun he => h (he ▸ List.mem_cons_self c cs)
    have hcs : sep ∉ cs := fun hm => h (List.mem_cons_of_mem c hm)
    simp only [splitOnChar, if_neg hc, ih hcs]

theorem splitFirst_append (sep : Char) (key val : List Char) (h : sep ∉ key) :
    splitFirst sep (key ++ sep :: val) = some (key, val) := by
  induction key with
  | nil => simp [splitFirst]
  | cons c cs ih =>
    have hc : ¬ c = sep := fun he => h (he ▸ List.mem_cons_self c cs)
    have hcs : sep ∉ cs := fun hm => h (List.mem_cons_of_mem c hm)
    have step : splitFirst sep ((c :: cs) ++ sep :: val) =
        if c = sep then some ([], cs ++ sep :: val)
        else
          match splitFirst sep (cs ++ sep :: val) with
          | some (a, b) => some (c :: a, b)
          | none => none := rfl
    rw [step, if_neg hc, ih hcs]

theorem parseQueryPairs_single (s : List Char) (hne : s ≠ []) (h : '&' ∉ s) :
    parseQueryPairs s = [parseQueryPair s] := by
  cases s with
  | nil => exact absurd rfl hne
  | cons c cs =>
    show (splitOnChar '&' (c :: cs)).map parseQueryPair = [parseQueryPair (c :: cs)]
    rw [splitOnChar_of_not_mem '&' (c :: cs) h]
    rfl

/-- C8: with query_strip_session_id on, which is the default, the known
session-id key PHPSESSID is removed while the other pairs are kept, and a
semicolon inside a query value is never a pair delimiter: a key-value token
whose value contains a semicolon parses as one single pair, the PHPSESSID
test query parses into exactly two pairs with the semicolon inside one
value, and the whole test URL comes out with only the surviving pair. -/
theorem query_session_id_stripping :
    (∀ (key val : List Char),
        '&' ∉ key → '=' ∉ key → '&' ∉ val →
        parseQueryPairs (key ++ '=' :: val) = [(key, some val)])
    ∧ init_options.query_strip_session_id = true
    ∧ isSessionIdKey "PHPSESSID".toList = true
    ∧ isSessionIdKey "action".toList = false
    ∧ parseQueryPairs "PHPSESSID=0123456789abcdefghijklemopqrstuv&action=profile;u=4221".toList
        = [("PHPSESSID".toList, some "0123456789abcdefghijklemopqrstuv".toList),
           ("action".toList, some "profile;u=4221".toList)]
    ∧ GenerateSurtFromURL
        "http://archive.org/index.php?PHPSESSID=0123456789abcdefghijklemopqrstuv&action=profile;u=4221"
        []
        = ("org,archive)/index.php?action=profile;u=4221", none) := by
  refine ⟨?_, rfl, by decide, by decide, by decide, by decide⟩
  intro key val hk1 hk2 hv
  have hne : key ++ '=' :: val ≠ [] := by cases key <;> simp
  have hmem : '&' ∉ key ++ '=' :: val := by
    intro hm
    rcases List.mem_append.mp hm with hm | hm
    · exact hk1 hm
    · rcases List.mem_cons.mp hm with hm | hm
      · simp at hm
      · exact hv hm
  rw [parseQueryPairs_single _ hne hmem]
  unfold parseQueryPair
  rw [splitFirst_append '=' key val hk2]

/-- Witness for C8: the single-pair parse applied at the surviving
semicolon-bearing token of the test query. -/
theorem query_session_id_stripping_witness :
    parseQueryPairs ("action".toList ++ '=' :: "profile;u=4221".toList)
      = [("action".toList, some "profile;u=4221".toList)] :=
  query_session_id_stripping.1 "action".toList "profile;u=4221".toList
    (by decide) (by decide) (by decide)

end Surtr
